import Mathlib

/-
Verification of the GUID-acquisition and activation-workflow core of
Rust-main.py (repository TRANTUAN-PC/Rust_A12_Bypass).

Strings from the Python source are modelled as `List Char`.  External
command invocations (subprocess calls, device I/O, HTTP) are modelled as
oracle inputs supplied through environment records; the control flow that
consumes their results is translated directly from the source.  All
definitions are executable; `decide` evaluates them on concrete inputs.
-/

set_option maxRecDepth 40000

namespace RustA12

open List

/-! # Part 1 — definitions -/

/-! ## Character classes

The validator (`validate_guid_structure`, Rust-main.py:630) uses the
uppercase hexadecimal set `set('0123456789ABCDEF')`; the regular
expressions (`GUID_REGEX`, line 119, compiled with `re.IGNORECASE`) accept
both cases. -/

def hexUpper : List Char :=
  ['0', '1', '2', '3', '4', '5', '6', '7', '8', '9', 'A', 'B', 'C', 'D', 'E', 'F']

def variantChars : List Char := ['8', '9', 'A', 'B']

/-- Character class of the regex `[0-9A-F]` under `re.IGNORECASE`. -/
def isHexCI (c : Char) : Bool :=
  decide (c ∈ hexUpper) || decide (c ∈ ['a', 'b', 'c', 'd', 'e', 'f'])

/-! ## Python string helpers -/

/-- Python `guid.split('-')` (Rust-main.py:633): never returns an empty
list; adjacent separators produce empty pieces. -/
def splitDash : List Char → List (List Char)
  | [] => [[]]
  | c :: cs =>
      if c = '-' then [] :: splitDash cs
      else
        match splitDash cs with
        | [] => [[c]]
        | p :: ps => (c :: p) :: ps

/-- Inverse of `splitDash`: joins pieces with a single dash. -/
def joinDash : List (List Char) → List Char
  | [] => []
  | [p] => p
  | p :: ps => p ++ '-' :: joinDash ps

/-- Python substring containment `pat in s`. -/
def containsSub (pat : List Char) : List Char → Bool
  | [] => decide (pat = [])
  | c :: rest => pat.isPrefixOf (c :: rest) || containsSub pat rest

/-! ## The GUID validator

Translation of `validate_guid_structure` (Rust-main.py:630-650).  The
Python `try/except` cannot fire on a string input (all indexing is guarded
by the length checks), so the function is total as written.
`guid.replace('-', '')` is `List.filter (· ≠ '-')`. -/

def validate_guid_structure (guid : List Char) : Bool :=
  match splitDash guid with
  | [p0, p1, p2, p3, p4] =>
      decide (p0.length = 8) && decide (p1.length = 4) && decide (p2.length = 4) &&
      decide (p3.length = 4) && decide (p4.length = 12) &&
      (guid.filter (fun c => decide (c ≠ '-'))).all (fun c => decide (c ∈ hexUpper)) &&
      (match p2.head? with | some c => decide (c = '4') | none => false) &&
      (match p3.head? with | some c => decide (c ∈ variantChars) | none => false)
  | _ => false

/-- Shape predicate written from the claim wording: the string decomposes
into exactly five hyphen-delimited groups of lengths 8-4-4-4-12 whose
characters lie in the character class `hex`, the third group starts with
`4` and the fourth with one of `8`, `9`, `A`, `B`. -/
def GuidSpec (hex : Char → Bool) (s : List Char) : Prop :=
  ∃ p0 p1 p2 p3 p4 : List Char,
    s = p0 ++ '-' :: p1 ++ '-' :: p2 ++ '-' :: p3 ++ '-' :: p4 ∧
    p0.length = 8 ∧ p1.length = 4 ∧ p2.length = 4 ∧ p3.length = 4 ∧ p4.length = 12 ∧
    (∀ c ∈ p0 ++ p1 ++ p2 ++ p3 ++ p4, hex c = true) ∧
    p2.head? = some '4' ∧
    (∃ c, p3.head? = some c ∧ c ∈ variantChars)

/-! ## The GUID-shaped regular expression

`GUID_REGEX = [0-9A-F]{8}-[0-9A-F]{4}-[0-9A-F]{4}-[0-9A-F]{4}-[0-9A-F]{12}`
with `re.IGNORECASE` (Rust-main.py:119, and its bytes twin at 612-615).
The pattern has a fixed length of 36 characters, so `re.search` returns
the match at the smallest starting index, and `re.finditer` returns
non-overlapping matches left to right, resuming after each match. -/

/-- Consumes `n` case-insensitive hex characters, returning the rest. -/
def takeHexCI : Nat → List Char → Option (List Char)
  | 0, rest => some rest
  | _ + 1, [] => none
  | n + 1, c :: rest => if isHexCI c then takeHexCI n rest else none

def expectDash : List Char → Option (List Char)
  | [] => none
  | c :: rest => if c = '-' then some rest else none

/-- Matches the 8-4-4-4-12 hex-hyphen pattern at the head of the list and
returns the remaining characters. -/
def guidShapeRest (cs : List Char) : Option (List Char) := do
  let r ← takeHexCI 8 cs
  let r ← expectDash r
  let r ← takeHexCI 4 r
  let r ← expectDash r
  let r ← takeHexCI 4 r
  let r ← expectDash r
  let r ← takeHexCI 4 r
  let r ← expectDash r
  takeHexCI 12 r

def isGuidShape (cs : List Char) : Bool := (guidShapeRest cs).isSome

/-- Leftmost regex match (`GUID_REGEX.search`): the matched 36 characters,
or `none`. -/
def guidSearch : List Char → Option (List Char)
  | [] => none
  | c :: rest =>
      if isGuidShape (c :: rest) then some ((c :: rest).take 36)
      else guidSearch rest

/-- All non-overlapping matches with their start offsets
(`guid_pattern.finditer`); the fuel argument bounds the iteration count
and `scanGuids` below supplies enough of it. -/
def scanGuidsF : Nat → List Char → Nat → List (Nat × List Char)
  | 0, _, _ => []
  | _ + 1, [], _ => []
  | fuel + 1, c :: rest, i =>
      if isGuidShape (c :: rest) then
        (i, (c :: rest).take 36) :: scanGuidsF fuel ((c :: rest).drop 36) (i + 36)
      else scanGuidsF fuel rest (i + 1)

def scanGuids (cs : List Char) : List (Nat × List Char) := scanGuidsF cs.length cs 0

/-! ## The candidate extractor (`extract_guid_candidates`, lines 609-628) -/

/-- A GUID candidate dictionary entry: value, signed offset relative to the
marker, and context excerpt.  The byte-level `decode('utf-8', 'replace')`
of `get_context_string` is abstracted to the raw character slice. -/
structure Cand where
  guid : List Char
  position : Int
  context : List Char
deriving DecidableEq

/-- Translation of `get_context_string` (lines 652-660) with
`context_size = 50`; the slice around a match inside the window. -/
def get_context_string (data : List Char) (start stop : Nat) : List Char :=
  (data.drop (start - 50)).take (min data.length (stop + 50) - (start - 50))

/-- The window slice `data[max(0, pos - window) : min(len, pos + window)]`
examined by the extractor (lines 616-618); natural subtraction models the
`max(0, ·)` clip. -/
def windowSlice (data : List Char) (context_pos window_size : Nat) : List Char :=
  let start := context_pos - window_size
  let stop := min data.length (context_pos + window_size)
  (data.drop start).take (stop - start)

/-- Translation of `extract_guid_candidates` (lines 609-628).  The Python
call sites use the default `window_size=512`; the parameter is explicit
here.  Each regex match is upper-cased, validated, and recorded with its
offset relative to `context_pos`. -/
def extract_guid_candidates (data : List Char) (context_pos window_size : Nat) : List Cand :=
  let start := context_pos - window_size
  let context_data := windowSlice data context_pos window_size
  (scanGuids context_data).filterMap (fun m =>
    let guid := m.2.map Char.toUpper
    let relative_pos : Int := (m.1 : Int) + (start : Int) - (context_pos : Int)
    if validate_guid_structure guid = true then
      some ⟨guid, relative_pos, get_context_string context_data m.1 (m.1 + 36)⟩
    else none)

/-- Modelled from the spec/claim wording for comparison: the same
extractor over "a symmetric window of `window` bytes centered on
`markerPosition`", i.e. `window / 2` bytes on each side (`window` bytes in
total), clipped to the data bounds. -/
def extract_guid_candidates_specWindow
    (data : List Char) (context_pos window_size : Nat) : List Cand :=
  let start := context_pos - window_size / 2
  let stop := min data.length (context_pos + window_size / 2)
  let context_data := (data.drop start).take (stop - start)
  (scanGuids context_data).filterMap (fun m =>
    let guid := m.2.map Char.toUpper
    let relative_pos : Int := (m.1 : Int) + (start : Int) - (context_pos : Int)
    if validate_guid_structure guid = true then
      some ⟨guid, relative_pos, get_context_string context_data m.1 (m.1 + 36)⟩
    else none)

/-! ## The confidence scorer (`analyze_guid_confidence`, lines 662-679) -/

/-- First-seen-order distinct keys, as produced by iterating a Python
`Counter` (insertion-ordered `dict`). -/
def keysAux : List (List Char) → List (List Char) → List (List Char)
  | _, [] => []
  | seen, g :: gs => if g ∈ seen then keysAux seen gs else g :: keysAux (g :: seen) gs

def counterKeys (cs : List Cand) : List (List Char) :=
  keysAux [] (cs.map (fun c => c.guid))

/-- Score of one GUID value (lines 669-676): `count * 10`, plus `5` per
occurrence with `abs(position) < 100`, plus `3` per occurrence with
`position < 0`. -/
def scoreOf (cs : List Cand) (g : List Char) : Nat :=
  let count := (cs.filter (fun c => decide (c.guid = g))).length
  let positions := (cs.filter (fun c => decide (c.guid = g))).map (fun c => c.position)
  count * 10 + (positions.filter (fun p => decide (p.natAbs < 100))).length * 5 +
    (positions.filter (fun p => decide (p < 0))).length * 3

/-- The `(guid, score, count)` triples in Counter (first-seen) order,
before sorting. -/
def scoredList (cs : List Cand) : List (List Char × Nat × Nat) :=
  (counterKeys cs).map (fun g =>
    (g, scoreOf cs g, (cs.filter (fun c => decide (c.guid = g))).length))

/-- Stable descending insertion: `x` is placed before the first element
whose score is not larger, so equal-score elements keep their relative
order.  Together with `sortDesc` this realises Python's stable
`sort(key=score, reverse=True)` (line 678). -/
def insertDesc (x : List Char × Nat × Nat) :
    List (List Char × Nat × Nat) → List (List Char × Nat × Nat)
  | [] => [x]
  | y :: ys => if x.2.1 < y.2.1 then y :: insertDesc x ys else x :: y :: ys

def sortDesc : List (List Char × Nat × Nat) → List (List Char × Nat × Nat)
  | [] => []
  | x :: xs => insertDesc x (sortDesc xs)

/-- Translation of `analyze_guid_confidence` (lines 662-679). -/
def analyze_guid_confidence (cs : List Cand) : Option (List (List Char × Nat × Nat)) :=
  if cs = [] then none else some (sortDesc (scoredList cs))

/-! Spec-side counting functions, written from the claim wording
independently of the route the source takes through `Counter`. -/

def countOcc (cs : List Cand) (g : List Char) : Nat :=
  cs.countP (fun c => decide (c.guid = g))

def closeOcc (cs : List Cand) (g : List Char) : Nat :=
  cs.countP (fun c => decide (c.guid = g) && decide (c.position.natAbs < 100))

def negOcc (cs : List Cand) (g : List Char) : Nat :=
  cs.countP (fun c => decide (c.guid = g) && decide (c.position < 0))

/-- Index of the first candidate carrying value `g` in the original
discovery order. -/
def firstOccIdx (cs : List Cand) (g : List Char) : Nat :=
  cs.findIdx (fun c => decide (c.guid = g))

/-! ## Strategy A: archive query (`extract_guid_from_archive`, lines 507-534) -/

def bldbFilename : List Char := "BLDatabaseManager.sqlite".toList

/-- The line loop of `extract_guid_from_archive` (lines 524-534): scan the
`log show` output lines; on each line containing the marker filename run
the GUID regex; return the first (upper-cased) match found this way.  A
marker line without a match does NOT stop the loop. -/
def extractScanLines : List (List Char) → Option (List Char)
  | [] => none
  | line :: rest =>
      if containsSub bldbFilename line then
        match guidSearch line with
        | some m => some (m.map Char.toUpper)
        | none => extractScanLines rest
      else extractScanLines rest

/-- Translation of `extract_guid_from_archive` (lines 507-534).  The
argument is the `log show` stdout already split into lines, or `none` when
the `log` tool is unavailable or exited non-zero (both return `None` in
the source). -/
def extract_guid_from_archive (logShow : Option (List (List Char))) : Option (List Char) :=
  match logShow with
  | none => none
  | some lines => extractScanLines lines

/-- Modelled from the spec/claim wording for comparison: restrict the
regex search to the FIRST line containing the marker filename; no later
line is consulted. -/
def extract_first_marker_line (lines : List (List Char)) : Option (List Char) :=
  match lines.find? (fun l => containsSub bldbFilename l) with
  | none => none
  | some l => (guidSearch l).map (fun m => m.map Char.toUpper)

/-! ## Strategy B: raw trace scan (`parse_tracev3_structure`, lines 590-607,
and `get_guid_enhanced`, lines 688-743) -/

def blmChars : List Char := "BLDatabaseManager".toList

def dbPatterns : List (List Char) :=
  [blmChars,
   "BLDatabase".toList,
   "BLDatabaseManager.sqlite".toList,
   "bookassetd [Database]: Store is at file:///private/var/containers/Shared/SystemGroup".toList]

/-- Index of the first occurrence of `pat` in a list, if any. -/
def findIdxSub (pat : List Char) : List Char → Option Nat
  | [] => if pat = [] then some 0 else none
  | c :: rest =>
      if pat.isPrefixOf (c :: rest) then some 0
      else (findIdxSub pat rest).map (fun i => i + 1)

/-- The stepping `data.find(pattern, pos)` loop of
`parse_tracev3_structure`: each found occurrence advances the search
position by the pattern length.  Fuel bounds the iteration count. -/
def findOccs (pat data : List Char) : Nat → Nat → List Nat
  | _, 0 => []
  | pos, fuel + 1 =>
      match findIdxSub pat (data.drop pos) with
      | none => []
      | some i => (pos + i) :: findOccs pat data (pos + i + pat.length) fuel

/-- Translation of `parse_tracev3_structure` (lines 590-607); the constant
`'string'` tag of each signature tuple is omitted. -/
def parse_tracev3_structure (data : List Char) : List (List Char × Nat) :=
  dbPatterns.foldl (fun acc pat =>
    acc ++ (findOccs pat data 0 (data.length + 1)).map (fun p => (pat, p))) []

/-- Translation of `confirm_guid_manual` (lines 681-686): the GUI build
always answers `"y"`, which is truthy. -/
def confirm_guid_manual (_g : List Char) : Bool := true

/-- Oracle inputs of one `get_guid_enhanced` call: whether the syslog
collection command exited 0, whether the tracev3 file exists, and the raw
bytes of the trace file. -/
structure AttemptB where
  collectOk : Bool
  traceExists : Bool
  data : List Char

/-- Translation of `get_guid_enhanced` (lines 688-743).  UI updates, log
output and the `finally: shutil.rmtree` cleanup have no bearing on the
returned value and are omitted. -/
def get_guid_enhanced (e : AttemptB) : Option (List Char) :=
  if e.collectOk = false then none
  else if e.traceExists = false then none
  else
    let data := e.data
    let signatures := parse_tracev3_structure data
    let all_candidates := signatures.foldl
      (fun acc sig =>
        if sig.1 = blmChars then acc ++ extract_guid_candidates data sig.2 512 else acc) []
    if all_candidates = [] then none
    else
      match analyze_guid_confidence all_candidates with
      | none => none
      | some [] => none
      | some (best :: _) =>
          if best.2.1 < 30 then
            if confirm_guid_manual best.1 = false then none else some best.1
          else some best.1

/-! ## Strategy A driver (`get_guid_auto_new`, lines 536-567) and the
retry loops -/

/-- Oracle inputs of one Strategy A attempt: reboot success, reconnect
success, archive collection success, and the `log show` output lines
(`none` when the tool is missing or exited non-zero). -/
structure AttemptA where
  rebootOk : Bool
  waitOk : Bool
  collectOk : Bool
  logShow : Option (List (List Char))

def bump (r : Option (List Char) × Nat) : Option (List Char) × Nat := (r.1, r.2 + 1)

/-- The `for attempt in range(1, max_attempts + 1)` loop of
`get_guid_auto_new`; the pair returned is (result, number of outer
attempts executed).  Fuel counts the remaining loop iterations; the
`attempt = maxAttempts` comparisons mirror the early `return None` exits
of the source, which all occur on the final attempt. -/
def get_guid_auto_new_go (env : Nat → AttemptA) (maxAttempts : Nat) :
    Nat → Nat → Option (List Char) × Nat
  | _, 0 => (none, 0)
  | attempt, fuel + 1 =>
      let a := env attempt
      if a.rebootOk = false then
        if attempt = maxAttempts then (none, 1)
        else bump (get_guid_auto_new_go env maxAttempts (attempt + 1) fuel)
      else if a.waitOk = false then
        if attempt = maxAttempts then (none, 1)
        else bump (get_guid_auto_new_go env maxAttempts (attempt + 1) fuel)
      else if a.collectOk = false then
        if attempt = maxAttempts then (none, 1)
        else bump (get_guid_auto_new_go env maxAttempts (attempt + 1) fuel)
      else
        match extract_guid_from_archive a.logShow with
        | some g =>
            if g ≠ [] ∧ validate_guid_structure g = true then (some g, 1)
            else bump (get_guid_auto_new_go env maxAttempts (attempt + 1) fuel)
        | none => bump (get_guid_auto_new_go env maxAttempts (attempt + 1) fuel)

/-- Translation of `get_guid_auto_new` (lines 536-567): result plus the
number of outer attempts executed. -/
def get_guid_auto_new (env : Nat → AttemptA) (maxAttempts : Nat) :
    Option (List Char) × Nat :=
  get_guid_auto_new_go env maxAttempts 1 maxAttempts

/-- The `while attempt_count < max_attempts` loop of
`get_guid_auto_with_retry` (lines 745-761); between-attempt reboot and
re-detection never abort the loop in the source and do not influence the
returned value. -/
def get_guid_auto_with_retry_go (env : Nat → AttemptB) :
    Nat → Nat → Option (List Char) × Nat
  | _, 0 => (none, 0)
  | k, fuel + 1 =>
      match get_guid_enhanced (env (k + 1)) with
      | some g => (some g, 1)
      | none => bump (get_guid_auto_with_retry_go env (k + 1) fuel)

/-- Translation of `get_guid_auto_with_retry` (lines 745-761) with
`self.max_attempts = 5` (line 116): result plus number of
`get_guid_enhanced` attempts executed. -/
def get_guid_auto_with_retry (env : Nat → AttemptB) : Option (List Char) × Nat :=
  get_guid_auto_with_retry_go env 0 5

/-- Translation of `get_guid_auto` (lines 569-576): Strategy A with 3
attempts, falling back to the legacy Strategy B loop.  Returns the result
together with the attempt counts of both strategies. -/
def get_guid_auto (envA : Nat → AttemptA) (envB : Nat → AttemptB) :
    Option (List Char) × Nat × Nat :=
  let rA := get_guid_auto_new envA 3
  match rA.1 with
  | some g => (some g, rA.2, 0)
  | none =>
      let rB := get_guid_auto_with_retry envB
      (rB.1, rA.2, rB.2)

/-! ## Device file removal (`rm_file`, lines 861-863) -/

def enoent : List Char := "ENOENT".toList

/-- Translation of `rm_file` (lines 861-863).  In the source the tuple
unpacking `code, _, _ = self._run_cmd(...)` leaves `_` bound to the LAST
component, the captured stderr text, so the function returns
`code == 0 or "ENOENT" in stderr`. -/
def rm_file (code : Int) (_stdout stderr : List Char) : Bool :=
  decide (code = 0) || containsSub enoent stderr

/-! ## The activation workflow (`Hacktivating`, lines 865-1063) -/

inductive Stage
  | connect | acquireGuid | resolvePayload | preload | download
  | validatePayload | deploy | cleanup | plistRound1 | plistRound2 | settle | finalReboot
deriving DecidableEq

inductive Failure
  | connectFailed | parseFailed | urlsFailed | downloadFailed | invalidPayload | uploadFailed
deriving DecidableEq

/-- Outcome of the initial `ideviceinfo` read (lines 872-899): the error
banner, a reply without `ProductType`, a reply whose `ProductType:` /
`SerialNumber:` split raises, or a parsed identity. -/
inductive ConnectCase
  | noDevice
  | notConnected
  | parseFail
  | ok (prd sn : String)
deriving DecidableEq

/-- Oracle inputs of one workflow run: results of the external calls made
by `Hacktivating`, in stage order.  Preload results are absent because
`preload_stage` failures never abort the run (lines 922-927); the
post-deploy device operations (cleanup, plist rounds, reboots) are
tolerated on failure and do not influence the control flow either. -/
structure WEnv where
  connect : ConnectCase
  guid : Option (List Char)
  urls : Option (String × String × String)
  download : Option String
  dbTableExists : Bool
  dbAssetRows : Nat
  pushOk : Bool

/-- Observable outcome of a workflow run: the stages entered in order, the
terminal failure if any, the guid string interpolated into the server
request when `ResolvePayload` ran (`f"...guid={self.guid}..."` renders
Python `None` as `"None"`), and whether the payload database handle was
opened / closed. -/
structure WResult where
  stages : List Stage
  failure : Option Failure
  requestGuid : Option String
  dbOpened : Bool
  dbClosed : Bool
deriving DecidableEq

/-- Translation of the `Hacktivating` workflow control flow (lines
865-1063).  Progress-bar calls, log lines and sleeps are omitted; each
early `return` of the source ends the stage list at the failing stage.
Note that the source stores `self.guid = self.get_guid_auto()` (line 903)
and proceeds WITHOUT checking it for `None`. -/
def Hacktivating (env : WEnv) : WResult :=
  match env.connect with
  | .noDevice => ⟨[.connect], some .connectFailed, none, false, false⟩
  | .notConnected => ⟨[.connect], some .connectFailed, none, false, false⟩
  | .parseFail => ⟨[.connect], some .parseFailed, none, false, false⟩
  | .ok _prd _sn =>
      let guidStr : String :=
        match env.guid with
        | none => "None"
        | some g => String.mk g
      match env.urls with
      | none =>
          ⟨[.connect, .acquireGuid, .resolvePayload], some .urlsFailed,
           some guidStr, false, false⟩
      | some (u1, u2, u3) =>
          if u1 = "" ∨ u2 = "" ∨ u3 = "" then
            ⟨[.connect, .acquireGuid, .resolvePayload], some .urlsFailed,
             some guidStr, false, false⟩
          else
            match env.download with
            | none =>
                ⟨[.connect, .acquireGuid, .resolvePayload, .preload, .download],
                 some .downloadFailed, some guidStr, false, false⟩
            | some _path =>
                if env.dbTableExists = false then
                  ⟨[.connect, .acquireGuid, .resolvePayload, .preload, .download,
                    .validatePayload],
                   some .invalidPayload, some guidStr, true, true⟩
                else if env.dbAssetRows = 0 then
                  ⟨[.connect, .acquireGuid, .resolvePayload, .preload, .download,
                    .validatePayload],
                   some .invalidPayload, some guidStr, true, true⟩
                else if env.pushOk = false then
                  ⟨[.connect, .acquireGuid, .resolvePayload, .preload, .download,
                    .validatePayload, .deploy],
                   some .uploadFailed, some guidStr, true, true⟩
                else
                  ⟨[.connect, .acquireGuid, .resolvePayload, .preload, .download,
                    .validatePayload, .deploy, .cleanup, .plistRound1, .plistRound2,
                    .settle, .finalReboot],
                   none, some guidStr, true, true⟩

/-! ## Concrete inputs used by witnesses and counterexamples -/

def exGuid : List Char := "2A22A82B-C342-444D-972F-5270FB5080DF".toList

def lowGuid : List Char := "2a22a82b-c342-444d-972f-5270fb5080df".toList

/-- A line containing the marker filename but no GUID-shaped substring. -/
def cexLine1 : List Char := bldbFilename

/-- A line containing both the marker filename and a GUID. -/
def cexLine2 : List Char := bldbFilename ++ (' ' :: exGuid)

/-- Data with a valid GUID 300 bytes after the marker position 0. -/
def dataC6 : List Char := List.replicate 300 'x' ++ exGuid

/-- Strategy A environment whose every attempt fails at the reboot step. -/
def envA0 : Nat → AttemptA := fun _ => ⟨false, true, true, none⟩

/-- Strategy B environment whose every attempt fails at log collection. -/
def envB0 : Nat → AttemptB := fun _ => ⟨false, true, []⟩

/-- Strategy A environment succeeding on the first attempt. -/
def envA1 : Nat → AttemptA := fun _ => ⟨true, true, true, some [cexLine2]⟩

/-- Trace data for a successful Strategy B attempt: the marker at offset 0
and a GUID 19 bytes after it. -/
def dataB1 : List Char := blmChars ++ ('x' :: 'y' :: exGuid)

def attB1 : AttemptB := ⟨true, true, dataB1⟩

/-- Workflow environment where the device connects but GUID acquisition
returns `None` (`get_guid_auto` exhausted both strategies). -/
def wenvC2 : WEnv := ⟨.ok "iPad1,2" "ABC123", none, none, none, false, 0, false⟩

/-- Workflow environment reaching validation with an asset table of 0
rows. -/
def wenvC8 : WEnv :=
  ⟨.ok "iPad1,2" "ABC123", some exGuid, some ("u1", "u2", "u3"),
   some "downloads.28.sqlitedb", true, 0, true⟩

def candA : Cand := ⟨exGuid, 19, []⟩

def candB : Cand := ⟨exGuid, -300, []⟩

def candC : Cand := ⟨"11111111-2222-4333-8444-555555555555".toList, 5, []⟩

/-! # Part 2 — theorems -/

/-! ## Properties of `splitDash` -/

theorem splitDash_ne_nil (cs : List Char) : splitDash cs ≠ [] := by
  induction cs with
  | nil => simp [splitDash]
  | cons c cs ih =>
      simp only [splitDash]
      split
      · simp
      · cases h : splitDash cs with
        | nil => simp
        | cons p ps => simp

theorem joinDash_splitDash (cs : List Char) : joinDash (splitDash cs) = cs := by
  induction cs with
  | nil => rfl
  | cons c cs ih =>
      simp only [splitDash]
      split
      · rename_i hdash
        cases h : splitDash cs with
        | nil => exact absurd h (splitDash_ne_nil cs)
        | cons p ps =>
            rw [h] at ih
            simp [joinDash, ← ih, hdash]
      · cases h : splitDash cs with
        | nil => exact absurd h (splitDash_ne_nil cs)
        | cons p ps =>
            rw [h] at ih
            cases ps with
            | nil => simp [joinDash] at ih ⊢; exact ih
            | cons q qs => simp [joinDash] at ih ⊢; rw [← ih]

theorem splitDash_no_dash (cs : List Char) :
    ∀ p ∈ splitDash cs, '-' ∉ p := by
  induction cs with
  | nil => intro p hp; simp [splitDash] at hp; simp [hp]
  | cons c cs ih =>
      intro p hp
      simp only [splitDash] at hp
      split at hp
      · rcases List.mem_cons.mp hp with h | h
        · simp [h]
        · exact ih p h
      · rename_i hdash
        cases h : splitDash cs with
        | nil => exact absurd h (splitDash_ne_nil cs)
        | cons q qs =>
            rw [h] at hp
            rcases List.mem_cons.mp hp with h2 | h2
            · subst h2
              intro hmem
              rcases List.mem_cons.mp hmem with h3 | h3
              · exact hdash h3.symm
              · exact ih q (h ▸ List.mem_cons_self q qs) h3
            · exact ih p (h ▸ List.mem_cons_of_mem q h2)

theorem splitDash_of_no_dash (p : List Char) (hp : '-' ∉ p) :
    splitDash p = [p] := by
  induction p with
  | nil => rfl
  | cons c cs ih =>
      have hc : ¬ c = '-' := fun h => hp (h ▸ List.mem_cons_self c cs)
      have hcs : '-' ∉ cs := fun h => hp (List.mem_cons_of_mem c h)
      simp only [splitDash, if_neg hc, ih hcs]

theorem splitDash_append_no_dash (p : List Char) (hp : '-' ∉ p) (xs : List Char) :
    splitDash (p ++ xs) =
      match splitDash xs with
      | [] => [p]
      | q :: qs => (p ++ q) :: qs := by
  induction p with
  | nil =>
      cases h : splitDash xs with
      | nil => exact absurd h (splitDash_ne_nil xs)
      | cons q qs => simpa using h
  | cons c cs ih =>
      have hc : ¬ c = '-' := fun h => hp (h ▸ List.mem_cons_self c cs)
      have hcs : '-' ∉ cs := fun h => hp (List.mem_cons_of_mem c h)
      cases h : splitDash xs with
      | nil => exact absurd h (splitDash_ne_nil xs)
      | cons q qs =>
          have ihr := ih hcs
          rw [h] at ihr
          show splitDash (c :: (cs ++ xs)) = ((c :: cs) ++ q) :: qs
          simp only [splitDash, if_neg hc, ihr]
          simp

theorem splitDash_joinDash (ps : List (List Char)) (hne : ps ≠ [])
    (hnd : ∀ p ∈ ps, '-' ∉ p) : splitDash (joinDash ps) = ps := by
  induction ps with
  | nil => exact absurd rfl hne
  | cons p qs ih =>
      cases qs with
      | nil =>
          simp only [joinDash]
          exact splitDash_of_no_dash p (hnd p (List.mem_cons_self p []))
      | cons q qs' =>
          have hpd : '-' ∉ p := hnd p (List.mem_cons_self _ _)
          have hrest : ∀ r ∈ q :: qs', '-' ∉ r := fun r hr =>
            hnd r (List.mem_cons_of_mem p hr)
          have ihr : splitDash (joinDash (q :: qs')) = q :: qs' :=
            ih (by simp) hrest
          show splitDash (p ++ '-' :: joinDash (q :: qs')) = p :: q :: qs'
          rw [splitDash_append_no_dash p hpd]
          have : splitDash ('-' :: joinDash (q :: qs')) =
              [] :: splitDash (joinDash (q :: qs')) := by
            simp [splitDash]
          rw [this, ihr]
          simp

/-! ## The validator agrees with the decomposition predicate -/

theorem hexUpper_ne_dash {c : Char} (h : c ∈ hexUpper) : c ≠ '-' := by
  intro hc; subst hc; simp [hexUpper] at h

theorem guidSpec_upper_iff (s : List Char) :
    validate_guid_structure s = true ↔ GuidSpec (fun c => decide (c ∈ hexUpper)) s := by
  constructor
  · intro h
    unfold validate_guid_structure at h
    split at h
    case h_2 => exact absurd h (by simp)
    case h_1 p0 p1 p2 p3 p4 heq =>
      simp only [Bool.and_eq_true, decide_eq_true_eq, List.all_eq_true] at h
      obtain ⟨⟨⟨⟨⟨⟨⟨h0, h1⟩, h2⟩, h3⟩, h4⟩, hhex⟩, hv⟩, hvar⟩ := h
      have hs : s = joinDash [p0, p1, p2, p3, p4] := by
        rw [← heq, joinDash_splitDash]
      have hjoin : joinDash [p0, p1, p2, p3, p4] =
          p0 ++ '-' :: p1 ++ '-' :: p2 ++ '-' :: p3 ++ '-' :: p4 := by
        simp [joinDash]
      have hnd : ∀ p ∈ [p0, p1, p2, p3, p4], '-' ∉ p := by
        intro p hp
        exact splitDash_no_dash s p (heq ▸ hp)
      refine ⟨p0, p1, p2, p3, p4, hs.trans hjoin, h0, h1, h2, h3, h4, ?_, ?_, ?_⟩
      · intro c hc
        have hcp : ∃ p ∈ [p0, p1, p2, p3, p4], c ∈ p := by
          simp only [List.mem_append] at hc
          rcases hc with ((((hc | hc) | hc) | hc) | hc) <;>
            [exact ⟨p0, by simp, hc⟩; exact ⟨p1, by simp, hc⟩;
             exact ⟨p2, by simp, hc⟩; exact ⟨p3, by simp, hc⟩;
             exact ⟨p4, by simp, hc⟩]
        obtain ⟨p, hp, hcp⟩ := hcp
        have hcs : c ∈ s := by
          rw [hs, hjoin]
          fin_cases hp <;> simp [hcp]
        have hcd : c ≠ '-' := fun hcd => hnd p hp (hcd ▸ hcp)
        have : c ∈ s.filter (fun c => decide (c ≠ '-')) :=
          List.mem_filter.mpr ⟨hcs, by simp [hcd]⟩
        simpa using hhex c this
      · cases p2 with
        | nil => simp at h2
        | cons c cs =>
            simp only [List.head?_cons, decide_eq_true_eq] at hv
            simp [hv]
      · cases p3 with
        | nil => simp at h3
        | cons c cs =>
            refine ⟨c, rfl, ?_⟩
            simp only [List.head?_cons] at hvar
            simpa using hvar
  · rintro ⟨p0, p1, p2, p3, p4, hs, h0, h1, h2, h3, h4, hhex, hv, c4, hvar, hc4⟩
    have hex_of_mem : ∀ p, (∀ c ∈ p0 ++ p1 ++ p2 ++ p3 ++ p4, decide (c ∈ hexUpper) = true) →
        p ∈ [p0, p1, p2, p3, p4] → ∀ c ∈ p, c ∈ hexUpper := by
      intro p hall hp c hc
      have : c ∈ p0 ++ p1 ++ p2 ++ p3 ++ p4 := by
        fin_cases hp <;> simp [hc]
      simpa using hall c this
    have hnd : ∀ p ∈ [p0, p1, p2, p3, p4], '-' ∉ p := by
      intro p hp hdp
      exact hexUpper_ne_dash (hex_of_mem p hhex hp '-' hdp) rfl
    have hsplit : splitDash s = [p0, p1, p2, p3, p4] := by
      have : s = joinDash [p0, p1, p2, p3, p4] := by
        rw [hs]; simp [joinDash]
      rw [this]
      exact splitDash_joinDash _ (by simp) hnd
    unfold validate_guid_structure
    rw [hsplit]
    have hfilter : s.filter (fun c => decide (c ≠ '-')) = p0 ++ p1 ++ p2 ++ p3 ++ p4 := by
      have fp : ∀ p : List Char, (∀ c ∈ p, c ∈ hexUpper) →
          p.filter (fun c => decide (c ≠ '-')) = p := by
        intro p hp
        apply List.filter_eq_self.mpr
        intro c hc
        simp [hexUpper_ne_dash (hp c hc)]
      rw [hs]
      simp only [List.filter_append, List.filter_cons]
      have hdash : (decide ('-' ≠ '-')) = false := by simp
      simp only [hdash, Bool.false_eq_true, if_false]
      rw [fp p0 (hex_of_mem p0 hhex (by simp)), fp p1 (hex_of_mem p1 hhex (by simp)),
          fp p2 (hex_of_mem p2 hhex (by simp)), fp p3 (hex_of_mem p3 hhex (by simp)),
          fp p4 (hex_of_mem p4 hhex (by simp))]
    simp only [Bool.and_eq_true, decide_eq_true_eq, List.all_eq_true]
    refine ⟨⟨⟨⟨⟨⟨⟨h0, h1⟩, h2⟩, h3⟩, h4⟩, ?_⟩, ?_⟩, ?_⟩
    · intro c hc
      rw [hfilter] at hc
      have := hhex c (by simpa [List.append_assoc] using hc)
      simpa using this
    · rw [hv]; simp
    · rw [hvar]; simpa using hc4

/-- A validated GUID is a 36-character string whose characters are
uppercase hex digits or hyphens. -/
theorem validate_shape {g : List Char} (h : validate_guid_structure g = true) :
    g.length = 36 ∧ ∀ c ∈ g, c ∈ hexUpper ∨ c = '-' := by
  obtain ⟨p0, p1, p2, p3, p4, hs, h0, h1, h2, h3, h4, hhex, -, -⟩ :=
    (guidSpec_upper_iff g).mp h
  constructor
  · subst hs; simp [List.length_append, h0, h1, h2, h3, h4]
  · intro c hc
    subst hs
    have hsplit : c = '-' ∨ c ∈ p0 ++ p1 ++ p2 ++ p3 ++ p4 := by
      simp only [List.mem_append, List.mem_cons] at hc ⊢
      tauto
    rcases hsplit with h | h
    · exact Or.inr h
    · exact Or.inl (by simpa using hhex c h)

/-! ## Claim C1 -/

/-- C1 (corrected): `validate_guid_structure s` is true iff `s` splits
into exactly 5 hyphen-delimited groups of lengths 8-4-4-4-12 whose
non-hyphen characters are all UPPERCASE hexadecimal digits, the first
character of the third group is `4`, and the first character of the
fourth group is one of `8`, `9`, `A`, `B`; every other string yields
false (the function is total, so it never raises). -/
theorem C1_validator_iff (s : List Char) :
    validate_guid_structure s = true ↔ GuidSpec (fun c => decide (c ∈ hexUpper)) s :=
  guidSpec_upper_iff s

/-- C1 counterexample: the claim says hexadecimal digits are interpreted
case-insensitively, but the source checks membership in the uppercase set
only, so an otherwise well-formed lowercase GUID satisfies the claim's
predicate yet is rejected by the code. -/
theorem C1_counterexample :
    GuidSpec isHexCI lowGuid ∧ validate_guid_structure lowGuid = false := by
  constructor
  · exact ⟨"2a22a82b".toList, "c342".toList, "444d".toList, "972f".toList,
      "5270fb5080df".toList, by decide, by decide, by decide, by decide, by decide,
      by decide, by decide, by decide, ⟨'9', by decide, by decide⟩⟩
  · decide

/-- C1 witness: the validator accepts the canonical uppercase example via
the amended equivalence. -/
theorem C1_validator_iff_witness : validate_guid_structure exGuid = true :=
  (C1_validator_iff exGuid).mpr
    ⟨"2A22A82B".toList, "C342".toList, "444D".toList, "972F".toList,
     "5270FB5080DF".toList, by decide, by decide, by decide, by decide, by decide,
     by decide, by decide, by decide, ⟨'9', by decide, by decide⟩⟩

/-! ## Claim C5 -/

/-- C5 (corrected): the candidate returned by the archive-query scan is
the upper-cased first regex match on the first line that BOTH contains the
marker filename AND has a GUID-shaped match; marker lines without a match
are skipped and later lines keep being consulted. -/
theorem C5_first_matching_line (lines : List (List Char)) (g : List Char) :
    extractScanLines lines = some g ↔
      ∃ (i : Nat) (l : List Char), lines[i]? = some l ∧
        containsSub bldbFilename l = true ∧
        (∃ m, guidSearch l = some m ∧ g = m.map Char.toUpper) ∧
        (∀ (j : Nat) (l' : List Char), j < i → lines[j]? = some l' →
          ¬ (containsSub bldbFilename l' = true ∧ (guidSearch l').isSome = true)) := by
  induction lines with
  | nil => simp [extractScanLines]
  | cons line rest ih =>
      by_cases hm : containsSub bldbFilename line = true
      · cases hs : guidSearch line with
        | some m =>
            simp only [extractScanLines, hm, if_true, hs]
            constructor
            · intro h
              have hg : g = m.map Char.toUpper := by
                have := Option.some.inj h
                exact this.symm
              exact ⟨0, line, by simp, hm, ⟨m, hs, hg⟩, by intro j l' hj; omega⟩
            · rintro ⟨i, l, hil, hml, ⟨m', hs', hg⟩, hprev⟩
              cases i with
              | zero =>
                  simp only [List.getElem?_cons_zero, Option.some.injEq] at hil
                  subst hil
                  rw [hs] at hs'
                  have : m = m' := Option.some.inj hs'
                  subst this
                  simp [hg]
              | succ j =>
                  exact absurd ⟨hm, by rw [hs]; rfl⟩
                    (hprev 0 line (Nat.succ_pos j) (by simp))
        | none =>
            simp only [extractScanLines, hm, if_true, hs]
            rw [ih]
            constructor
            · rintro ⟨i, l, hil, hml, hmm, hprev⟩
              refine ⟨i + 1, l, by simpa using hil, hml, hmm, ?_⟩
              intro j l' hj hjl
              cases j with
              | zero =>
                  simp only [List.getElem?_cons_zero, Option.some.injEq] at hjl
                  subst hjl
                  rintro ⟨-, hsome⟩
                  rw [hs] at hsome
                  simp at hsome
              | succ j' =>
                  exact hprev j' l' (by omega) (by simpa using hjl)
            · rintro ⟨i, l, hil, hml, hmm, hprev⟩
              cases i with
              | zero =>
                  simp only [List.getElem?_cons_zero, Option.some.injEq] at hil
                  subst hil
                  obtain ⟨m', hs', -⟩ := hmm
                  rw [hs] at hs'
                  simp at hs'
              | succ i' =>
                  refine ⟨i', l, by simpa using hil, hml, hmm, ?_⟩
                  intro j l' hj hjl
                  exact hprev (j + 1) l' (by omega) (by simpa using hjl)
      · have hm' : containsSub bldbFilename line = false := by
          simpa using hm
        simp only [extractScanLines, hm', Bool.false_eq_true, if_false]
        rw [ih]
        constructor
        · rintro ⟨i, l, hil, hml, hmm, hprev⟩
          refine ⟨i + 1, l, by simpa using hil, hml, hmm, ?_⟩
          intro j l' hj hjl
          cases j with
          | zero =>
              simp only [List.getElem?_cons_zero, Option.some.injEq] at hjl
              subst hjl
              rintro ⟨hcm, -⟩
              rw [hm'] at hcm
              exact Bool.false_ne_true hcm
          | succ j' =>
              exact hprev j' l' (by omega) (by simpa using hjl)
        · rintro ⟨i, l, hil, hml, hmm, hprev⟩
          cases i with
          | zero =>
              simp only [List.getElem?_cons_zero, Option.some.injEq] at hil
              subst hil
              rw [hm'] at hml
              exact absurd hml Bool.false_ne_true
          | succ i' =>
              refine ⟨i', l, by simpa using hil, hml, hmm, ?_⟩
              intro j l' hj hjl
              exact hprev (j + 1) l' (by omega) (by simpa using hjl)

/-- C5 counterexample: the first line containing the marker filename has
no GUID-shaped substring, yet the code returns a candidate taken from a
LATER marker line, so the candidate is not obtained from the first marker
line and later lines are consulted. -/
theorem C5_counterexample :
    containsSub bldbFilename cexLine1 = true ∧
    extract_guid_from_archive (some [cexLine1, cexLine2]) = some exGuid ∧
    extract_first_marker_line [cexLine1, cexLine2] = none := by
  refine ⟨by decide, by decide, by decide⟩

/-- C5 witness: the amended characterisation applied to the concrete line
pair yields the scan result. -/
theorem C5_first_matching_line_witness :
    extractScanLines [cexLine1, cexLine2] = some exGuid :=
  (C5_first_matching_line [cexLine1, cexLine2] exGuid).mpr
    ⟨1, cexLine2, by decide, by decide, ⟨exGuid, by decide, by decide⟩, by
      intro j l' hj hjl
      interval_cases j
      simp only [List.getElem?_cons_zero, Option.some.injEq] at hjl
      subst hjl
      decide⟩

/-! ## Shape matching and the scanner -/

theorem takeHexCI_length {n : Nat} {cs rest : List Char}
    (h : takeHexCI n cs = some rest) : cs.length = n + rest.length := by
  induction n generalizing cs with
  | zero =>
      simp only [takeHexCI, Option.some.injEq] at h
      subst h; simp
  | succ n ih =>
      cases cs with
      | nil => simp [takeHexCI] at h
      | cons c cs' =>
          simp only [takeHexCI] at h
          split at h
          · have := ih h
            simp [this]; omega
          · exact absurd h (by simp)

theorem expectDash_length {cs rest : List Char}
    (h : expectDash cs = some rest) : cs.length = 1 + rest.length := by
  cases cs with
  | nil => simp [expectDash] at h
  | cons c cs' =>
      simp only [expectDash] at h
      split at h
      · have := Option.some.inj h
        subst this; simp; omega
      · exact absurd h (by simp)

theorem guidShapeRest_length {cs r : List Char}
    (h : guidShapeRest cs = some r) : cs.length = 36 + r.length := by
  unfold guidShapeRest at h
  simp only [Option.bind_eq_bind, Option.bind_eq_some] at h
  obtain ⟨r1, h1, r2, h2, r3, h3, r4, h4, r5, h5, r6, h6, r7, h7, r8, h8, h9⟩ := h
  have l1 := takeHexCI_length h1
  have l2 := expectDash_length h2
  have l3 := takeHexCI_length h3
  have l4 := expectDash_length h4
  have l5 := takeHexCI_length h5
  have l6 := expectDash_length h6
  have l7 := takeHexCI_length h7
  have l8 := expectDash_length h8
  have l9 := takeHexCI_length h9
  omega

theorem isGuidShape_length {cs : List Char} (h : isGuidShape cs = true) :
    36 ≤ cs.length := by
  unfold isGuidShape at h
  cases hr : guidShapeRest cs with
  | none => rw [hr] at h; simp at h
  | some r => have := guidShapeRest_length hr; omega

theorem scanGuidsF_bounds :
    ∀ (fuel : Nat) (cs : List Char) (i : Nat) e, e ∈ scanGuidsF fuel cs i →
      i ≤ e.1 ∧ e.1 + 36 ≤ i + cs.length := by
  intro fuel
  induction fuel with
  | zero => intro cs i e he; simp [scanGuidsF] at he
  | succ fuel ih =>
      intro cs i e he
      cases cs with
      | nil => simp [scanGuidsF] at he
      | cons c rest =>
          simp only [scanGuidsF] at he
          split at he
          · rename_i hshape
            have hlen := isGuidShape_length hshape
            rcases List.mem_cons.mp he with h | h
            · subst h
              constructor
              · exact Nat.le_refl i
              · simpa using hlen
            · have := ih _ _ _ h
              have hdrop : ((c :: rest).drop 36).length = (c :: rest).length - 36 := by
                simp
              constructor
              · omega
              · omega
          · have := ih _ _ _ he
            constructor
            · omega
            · simp only [List.length_cons]
              omega

theorem scanGuidsF_pairwise :
    ∀ (fuel : Nat) (cs : List Char) (i : Nat),
      (scanGuidsF fuel cs i).Pairwise (fun a b => a.1 < b.1) := by
  intro fuel
  induction fuel with
  | zero => intro cs i; simp [scanGuidsF]
  | succ fuel ih =>
      intro cs i
      cases cs with
      | nil => simp [scanGuidsF]
      | cons c rest =>
          simp only [scanGuidsF]
          split
          · refine List.Pairwise.cons ?_ (ih _ _)
            intro b hb
            have := (scanGuidsF_bounds fuel _ _ b hb).1
            omega
          · exact ih _ _

/-! ## Properties of the candidate extractor -/

theorem mem_extract_validate {data : List Char} {p w : Nat} {c : Cand}
    (hc : c ∈ extract_guid_candidates data p w) :
    validate_guid_structure c.guid = true ∧
      -(w : Int) ≤ c.position ∧ c.position < (w : Int) := by
  unfold extract_guid_candidates at hc
  obtain ⟨m, hm, hfm⟩ := List.mem_filterMap.mp hc
  dsimp only at hfm
  split at hfm
  · rename_i hval
    have hcval : c = ⟨m.2.map Char.toUpper,
        (m.1 : Int) + ((p - w : Nat) : Int) - (p : Int),
        get_context_string (windowSlice data p w) m.1 (m.1 + 36)⟩ :=
      (Option.some.inj hfm).symm
    subst hcval
    refine ⟨hval, ?_, ?_⟩
    · simp only
      omega
    · simp only
      have hb := scanGuidsF_bounds (windowSlice data p w).length _ _ m hm
      have hslice : (windowSlice data p w).length ≤ min data.length (p + w) - (p - w) := by
        unfold windowSlice
        simp
      have hmin : min data.length (p + w) ≤ p + w := Nat.min_le_right _ _
      omega
  · exact absurd hfm (by simp)

theorem extract_pairwise (data : List Char) (p w : Nat) :
    (extract_guid_candidates data p w).Pairwise (fun a b => a.position < b.position) := by
  unfold extract_guid_candidates
  apply List.pairwise_filterMap.mpr
  apply (scanGuidsF_pairwise _ _ _).imp
  intro a b hab
  intro x hx y hy
  simp only [Option.mem_def] at hx hy
  split at hx
  · split at hy
    · have hxv := (Option.some.inj hx).symm
      have hyv := (Option.some.inj hy).symm
      subst hxv; subst hyv
      simp only
      omega
    · exact absurd hy (by simp)
  · exact absurd hx (by simp)

theorem extract_locality (data data2 : List Char) (p w : Nat)
    (h : windowSlice data p w = windowSlice data2 p w) :
    extract_guid_candidates data p w = extract_guid_candidates data2 p w := by
  unfold extract_guid_candidates
  rw [h]

/-! ## Claim C6 -/

/-- C6 (corrected): the extractor examines the window extending `w` bytes
on EACH side of the marker position (2·w bytes in total, not w), clipped
to the data bounds — its output is a function of that slice alone, and
every returned candidate passes the validator, has its offset inside
[-w, w), and the sequence is ordered ascending by byte offset. -/
theorem C6_extractor (data : List Char) (p w : Nat) :
    (∀ c ∈ extract_guid_candidates data p w,
        validate_guid_structure c.guid = true ∧
        -(w : Int) ≤ c.position ∧ c.position < (w : Int)) ∧
    (extract_guid_candidates data p w).Pairwise (fun a b => a.position < b.position) ∧
    (∀ data2, windowSlice data p w = windowSlice data2 p w →
      extract_guid_candidates data p w = extract_guid_candidates data2 p w) :=
  ⟨fun _ hc => mem_extract_validate hc, extract_pairwise data p w,
   fun data2 h => extract_locality data data2 p w h⟩

/-- C6 counterexample: with the default `window=512` and the marker at
position 0, the code returns a candidate at byte offset 300 — outside a
"symmetric window of 512 bytes centered on the marker" (which would end at
offset 256 and, as the spec-worded extractor shows, yields nothing). -/
theorem C6_counterexample :
    (extract_guid_candidates dataC6 0 512).map (fun c => c.position) = [(300 : Int)] ∧
    extract_guid_candidates_specWindow dataC6 0 512 = [] := by
  refine ⟨by decide, by decide⟩

/-- C6 witness: the amended window/validator/order statement applied to
the concrete candidate found in `dataC6`. -/
theorem C6_extractor_witness :
    validate_guid_structure
        (⟨exGuid, 300, List.replicate 50 'x' ++ exGuid⟩ : Cand).guid = true ∧
      -(512 : Int) ≤ (⟨exGuid, 300, List.replicate 50 'x' ++ exGuid⟩ : Cand).position ∧
      (⟨exGuid, 300, List.replicate 50 'x' ++ exGuid⟩ : Cand).position < (512 : Int) :=
  (C6_extractor dataC6 0 512).1 _ (by decide)

/-! ## The stable descending sort -/

theorem insertDesc_perm (x : List Char × Nat × Nat)
    (ys : List (List Char × Nat × Nat)) : insertDesc x ys ~ x :: ys := by
  induction ys with
  | nil => simp [insertDesc]
  | cons y ys ih =>
      simp only [insertDesc]
      split
      · exact (ih.cons y).trans (List.Perm.swap x y ys)
      · exact List.Perm.refl _

theorem sortDesc_perm (l : List (List Char × Nat × Nat)) : sortDesc l ~ l := by
  induction l with
  | nil => simp [sortDesc]
  | cons x xs ih => exact (insertDesc_perm x (sortDesc xs)).trans (ih.cons x)

theorem insertDesc_sorted (x : List Char × Nat × Nat)
    {ys : List (List Char × Nat × Nat)}
    (h : ys.Pairwise (fun a b => b.2.1 ≤ a.2.1)) :
    (insertDesc x ys).Pairwise (fun a b => b.2.1 ≤ a.2.1) := by
  induction ys with
  | nil => simp [insertDesc]
  | cons y ys ih =>
      rcases List.pairwise_cons.mp h with ⟨hy, hys⟩
      simp only [insertDesc]
      split
      · rename_i hlt
        refine List.pairwise_cons.mpr ⟨?_, ih hys⟩
        intro z hz
        rcases List.mem_cons.mp ((insertDesc_perm x ys).mem_iff.mp hz) with rfl | hzys
        · exact Nat.le_of_lt hlt
        · exact hy z hzys
      · rename_i hge
        have hxy : y.2.1 ≤ x.2.1 := Nat.le_of_not_lt hge
        refine List.pairwise_cons.mpr ⟨?_, h⟩
        intro z hz
        rcases List.mem_cons.mp hz with rfl | hzys
        · exact hxy
        · exact Nat.le_trans (hy z hzys) hxy

theorem sortDesc_sorted (l : List (List Char × Nat × Nat)) :
    (sortDesc l).Pairwise (fun a b => b.2.1 ≤ a.2.1) := by
  induction l with
  | nil => simp [sortDesc]
  | cons x xs ih => exact insertDesc_sorted x ih

theorem filter_insertDesc_of_neg {P : List Char × Nat × Nat → Bool}
    {x : List Char × Nat × Nat} (hx : P x = false)
    (ys : List (List Char × Nat × Nat)) :
    (insertDesc x ys).filter P = ys.filter P := by
  induction ys with
  | nil => simp [insertDesc, List.filter_cons, hx]
  | cons y ys ih =>
      simp only [insertDesc]
      split
      · simp only [List.filter_cons, ih]
      · simp only [List.filter_cons, hx]
        simp

theorem filter_insertDesc_of_pos {s : Nat} {x : List Char × Nat × Nat}
    (hx : x.2.1 = s) {ys : List (List Char × Nat × Nat)}
    (hsort : ys.Pairwise (fun a b => b.2.1 ≤ a.2.1)) :
    (insertDesc x ys).filter (fun e => decide (e.2.1 = s)) =
      x :: ys.filter (fun e => decide (e.2.1 = s)) := by
  induction ys with
  | nil => simp [insertDesc, List.filter_cons, hx]
  | cons y ys ih =>
      rcases List.pairwise_cons.mp hsort with ⟨hy, hys⟩
      simp only [insertDesc]
      split
      · rename_i hlt
        have hPy : (decide (y.2.1 = s) : Bool) = false := by
          simp only [decide_eq_false_iff_not]
          omega
        simp only [List.filter_cons, hPy, Bool.false_eq_true, if_false, ih hys]
      · simp [List.filter_cons, hx]

theorem sortDesc_filter_score (l : List (List Char × Nat × Nat)) (s : Nat) :
    (sortDesc l).filter (fun e => decide (e.2.1 = s)) =
      l.filter (fun e => decide (e.2.1 = s)) := by
  induction l with
  | nil => rfl
  | cons x xs ih =>
      simp only [sortDesc]
      by_cases hx : x.2.1 = s
      · rw [filter_insertDesc_of_pos hx (sortDesc_sorted xs), ih, List.filter_cons]
        simp [hx]
      · have hPx : (decide (x.2.1 = s) : Bool) = false := by simp [hx]
        rw [filter_insertDesc_of_neg hPx, ih, List.filter_cons]
        simp [hPx]

/-! ## First-seen keys -/

theorem keysAux_mem : ∀ (gs seen : List (List Char)) (g : List Char),
    g ∈ keysAux seen gs → g ∈ gs ∧ g ∉ seen := by
  intro gs
  induction gs with
  | nil => intro seen g h; simp [keysAux] at h
  | cons a gs ih =>
      intro seen g h
      simp only [keysAux] at h
      split at h
      · have := ih seen g h
        exact ⟨List.mem_cons_of_mem a this.1, this.2⟩
      · rename_i ha
        rcases List.mem_cons.mp h with rfl | h2
        · exact ⟨List.mem_cons_self _ _, ha⟩
        · have := ih _ g h2
          exact ⟨List.mem_cons_of_mem a this.1,
            fun hseen => this.2 (List.mem_cons_of_mem a hseen)⟩

theorem mem_keysAux : ∀ (gs seen : List (List Char)) (g : List Char),
    g ∈ gs → g ∉ seen → g ∈ keysAux seen gs := by
  intro gs
  induction gs with
  | nil => intro seen g h; simp at h
  | cons a gs ih =>
      intro seen g hg hs
      simp only [keysAux]
      split
      · rename_i ha
        rcases List.mem_cons.mp hg with rfl | h2
        · exact absurd ha hs
        · exact ih seen g h2 hs
      · rename_i ha
        rcases List.mem_cons.mp hg with rfl | h2
        · exact List.mem_cons_self _ _
        · by_cases hga : g = a
          · subst hga; exact List.mem_cons_self _ _
          · refine List.mem_cons_of_mem a (ih _ g h2 ?_)
            intro hmem
            rcases List.mem_cons.mp hmem with h3 | h3
            · exact hga h3
            · exact hs h3

theorem keysAux_nodup : ∀ (gs seen : List (List Char)), (keysAux seen gs).Nodup := by
  intro gs
  induction gs with
  | nil => intro seen; simp [keysAux]
  | cons a gs ih =>
      intro seen
      simp only [keysAux]
      split
      · exact ih seen
      · refine List.nodup_cons.mpr ⟨?_, ih _⟩
        intro ha
        exact (keysAux_mem gs (a :: seen) a ha).2 (List.mem_cons_self _ _)

theorem keysAux_pairwise : ∀ (gs seen : List (List Char)),
    (keysAux seen gs).Pairwise (fun a b =>
      gs.findIdx (fun x => decide (x = a)) < gs.findIdx (fun x => decide (x = b))) := by
  intro gs
  induction gs with
  | nil => intro seen; simp [keysAux]
  | cons g gs ih =>
      intro seen
      simp only [keysAux]
      split
      · rename_i hg
        refine ((ih seen).imp_of_mem ?_)
        intro a b ha hb hab
        have hga : ¬ g = a := fun h => (keysAux_mem gs seen a ha).2 (h ▸ hg)
        have hgb : ¬ g = b := fun h => (keysAux_mem gs seen b hb).2 (h ▸ hg)
        rw [List.findIdx_cons, List.findIdx_cons, decide_eq_false hga,
          decide_eq_false hgb]
        simp only [Bool.cond_false]
        omega
      · rename_i hg
        refine List.pairwise_cons.mpr ⟨?_, ?_⟩
        · intro b hb
          have hgb : ¬ g = b := fun h =>
            (keysAux_mem gs (g :: seen) b hb).2 (h ▸ List.mem_cons_self _ _)
          have hgg : (decide (g = g) : Bool) = true := by simp
          rw [List.findIdx_cons, List.findIdx_cons, decide_eq_false hgb, hgg]
          simp only [Bool.cond_false, Bool.cond_true]
          omega
        · refine ((ih (g :: seen)).imp_of_mem ?_)
          intro a b ha hb hab
          have hga : ¬ g = a := fun h =>
            (keysAux_mem gs (g :: seen) a ha).2 (h ▸ List.mem_cons_self _ _)
          have hgb : ¬ g = b := fun h =>
            (keysAux_mem gs (g :: seen) b hb).2 (h ▸ List.mem_cons_self _ _)
          rw [List.findIdx_cons, List.findIdx_cons, decide_eq_false hga,
            decide_eq_false hgb]
          simp only [Bool.cond_false]
          omega

theorem findIdx_map_guid (cs : List Cand) (g : List Char) :
    (cs.map (fun c => c.guid)).findIdx (fun x => decide (x = g)) = firstOccIdx cs g := by
  unfold firstOccIdx
  induction cs with
  | nil => rfl
  | cons c cs ih =>
      simp only [List.map_cons, List.findIdx_cons, ih]

theorem counterKeys_mem_iff (cs : List Cand) (g : List Char) :
    g ∈ counterKeys cs ↔ g ∈ cs.map (fun c => c.guid) := by
  unfold counterKeys
  constructor
  · intro h; exact (keysAux_mem _ _ _ h).1
  · intro h; exact mem_keysAux _ _ _ h (by simp)

/-! ## The scored list -/

theorem scoredList_map_fst (cs : List Cand) :
    (scoredList cs).map (fun e => e.1) = counterKeys cs := by
  unfold scoredList
  rw [List.map_map]
  exact List.map_id _

theorem mem_scoredList {cs : List Cand} {e : List Char × Nat × Nat}
    (he : e ∈ scoredList cs) :
    e.1 ∈ counterKeys cs ∧ e.2.1 = scoreOf cs e.1 ∧
      e.2.2 = (cs.filter (fun c => decide (c.guid = e.1))).length := by
  unfold scoredList at he
  obtain ⟨g, hg, hge⟩ := List.mem_map.mp he
  subst hge
  exact ⟨hg, rfl, rfl⟩

theorem scoredList_pairwise_first (cs : List Cand) :
    (scoredList cs).Pairwise (fun a b => firstOccIdx cs a.1 < firstOccIdx cs b.1) := by
  unfold scoredList
  rw [List.pairwise_map]
  refine (keysAux_pairwise (cs.map (fun c => c.guid)) []).imp ?_
  intro a b hab
  rwa [findIdx_map_guid, findIdx_map_guid] at hab

theorem scoreOf_eq (cs : List Cand) (g : List Char) :
    scoreOf cs g = 10 * countOcc cs g + 5 * closeOcc cs g + 3 * negOcc cs g := by
  have hcount : (List.filter (fun c => decide (c.guid = g)) cs).length = countOcc cs g := by
    rw [countOcc, List.countP_eq_length_filter]
  have hclose : (List.filter (fun p => decide (p.natAbs < 100))
      (List.map (fun c => c.position) (List.filter (fun c => decide (c.guid = g)) cs))).length
      = closeOcc cs g := by
    rw [List.filter_map, List.length_map, List.filter_filter, closeOcc,
      List.countP_eq_length_filter]
    apply congrArg List.length
    apply List.filter_congr
    intro a _
    simp [Function.comp, Bool.and_comm]
  have hneg : (List.filter (fun p => decide (p < 0))
      (List.map (fun c => c.position) (List.filter (fun c => decide (c.guid = g)) cs))).length
      = negOcc cs g := by
    rw [List.filter_map, List.length_map, List.filter_filter, negOcc,
      List.countP_eq_length_filter]
    apply congrArg List.length
    apply List.filter_congr
    intro a _
    simp [Function.comp, Bool.and_comm]
  simp only [scoreOf]
  omega

theorem analyze_eq_some {cs : List Cand} {out : List (List Char × Nat × Nat)}
    (h : analyze_guid_confidence cs = some out) :
    cs ≠ [] ∧ out = sortDesc (scoredList cs) := by
  unfold analyze_guid_confidence at h
  split at h
  · simp at h
  · exact ⟨by assumption, (Option.some.inj h).symm⟩

/-! ## Claim C4 -/

/-- C4 (confirmed): for empty input the scorer returns none; otherwise it
returns each distinct GUID once with score
`10·occurrences + 5·(occurrences with |offset| < 100) + 3·(occurrences
with negative offset)`, sorted descending by score with ties in first-seen
order. -/
theorem C4_scorer (cs : List Cand) :
    (analyze_guid_confidence cs = none ↔ cs = []) ∧
    ∀ out, analyze_guid_confidence cs = some out →
      (∀ e ∈ out, e.2.2 = countOcc cs e.1 ∧
         e.2.1 = 10 * countOcc cs e.1 + 5 * closeOcc cs e.1 + 3 * negOcc cs e.1) ∧
      (out.map (fun e => e.1)).Nodup ∧
      (∀ g, g ∈ out.map (fun e => e.1) ↔ g ∈ cs.map (fun c => c.guid)) ∧
      (∀ i j (hi : i < out.length) (hj : j < out.length), i < j →
        (out.get ⟨j, hj⟩).2.1 < (out.get ⟨i, hi⟩).2.1 ∨
        ((out.get ⟨i, hi⟩).2.1 = (out.get ⟨j, hj⟩).2.1 ∧
          firstOccIdx cs (out.get ⟨i, hi⟩).1 < firstOccIdx cs (out.get ⟨j, hj⟩).1)) := by
  constructor
  · unfold analyze_guid_confidence
    split
    · simp_all
    · simp_all
  · intro out hout
    obtain ⟨hne, hform⟩ := analyze_eq_some hout
    subst hform
    have hperm : sortDesc (scoredList cs) ~ scoredList cs := sortDesc_perm _
    have hmapperm : (sortDesc (scoredList cs)).map (fun e => e.1) ~ counterKeys cs := by
      rw [← scoredList_map_fst]
      exact hperm.map _
    refine ⟨?_, ?_, ?_, ?_⟩
    · intro e he
      have hes : e ∈ scoredList cs := hperm.mem_iff.mp he
      obtain ⟨hkey, hscore, hcount⟩ := mem_scoredList hes
      refine ⟨?_, ?_⟩
      · rw [hcount, countOcc, List.countP_eq_length_filter]
      · rw [hscore, scoreOf_eq]
    · exact hmapperm.nodup_iff.mpr (keysAux_nodup _ _)
    · intro g
      rw [hmapperm.mem_iff]
      exact counterKeys_mem_iff cs g
    · intro i j hi hj hij
      have hsorted := sortDesc_sorted (scoredList cs)
      have hle := (List.pairwise_iff_get.mp hsorted) ⟨i, hi⟩ ⟨j, hj⟩ hij
      by_cases heq : ((sortDesc (scoredList cs)).get ⟨i, hi⟩).2.1 =
          ((sortDesc (scoredList cs)).get ⟨j, hj⟩).2.1
      · right
        refine ⟨heq, ?_⟩
        have hstable : (sortDesc (scoredList cs)).Pairwise
            (fun a b => a.2.1 = ((sortDesc (scoredList cs)).get ⟨i, hi⟩).2.1 →
              b.2.1 = ((sortDesc (scoredList cs)).get ⟨i, hi⟩).2.1 →
              firstOccIdx cs a.1 < firstOccIdx cs b.1) := by
          apply List.pairwise_filter.mp
          rw [sortDesc_filter_score]
          exact (scoredList_pairwise_first cs).filter _
        exact (List.pairwise_iff_get.mp hstable) ⟨i, hi⟩ ⟨j, hj⟩ hij rfl heq.symm
      · left
        exact Nat.lt_of_le_of_ne hle (fun h => heq (h.symm))

/-- C4 witness: the scorer applied to a concrete candidate list, with the
stable-order conclusion instantiated at the two output slots. -/
theorem C4_scorer_witness :
    analyze_guid_confidence [candA, candB, candA, candC] = some
      [(exGuid, 43, 3), ("11111111-2222-4333-8444-555555555555".toList, 15, 1)] ∧
    (((sortDesc (scoredList [candA, candB, candA, candC])).get ⟨1, by decide⟩).2.1 <
        ((sortDesc (scoredList [candA, candB, candA, candC])).get ⟨0, by decide⟩).2.1 ∨
      (((sortDesc (scoredList [candA, candB, candA, candC])).get ⟨0, by decide⟩).2.1 =
          ((sortDesc (scoredList [candA, candB, candA, candC])).get ⟨1, by decide⟩).2.1 ∧
        firstOccIdx [candA, candB, candA, candC]
            ((sortDesc (scoredList [candA, candB, candA, candC])).get ⟨0, by decide⟩).1 <
          firstOccIdx [candA, candB, candA, candC]
            ((sortDesc (scoredList [candA, candB, candA, candC])).get ⟨1, by decide⟩).1)) :=
  ⟨by decide,
   ((C4_scorer [candA, candB, candA, candC]).2 _ rfl).2.2.2 0 1 (by decide) (by decide)
     (by decide)⟩

/-! ## Claim C7 -/

theorem scoreOf_perm {cs₁ cs₂ : List Cand} (h : cs₁ ~ cs₂) (g : List Char) :
    scoreOf cs₁ g = scoreOf cs₂ g := by
  have h1 := h.filter (fun c => decide (c.guid = g))
  have h2 := (h1.map (fun c => c.position)).filter (fun p => decide (p.natAbs < 100))
  have h3 := (h1.map (fun c => c.position)).filter (fun p => decide (p < 0))
  simp only [scoreOf]
  rw [h1.length_eq, h2.length_eq, h3.length_eq]

theorem counterKeys_perm {cs₁ cs₂ : List Cand} (h : cs₁ ~ cs₂) :
    counterKeys cs₁ ~ counterKeys cs₂ := by
  apply (List.perm_ext_iff_of_nodup (keysAux_nodup _ _) (keysAux_nodup _ _)).mpr
  intro g
  rw [show keysAux [] (cs₁.map (fun c => c.guid)) = counterKeys cs₁ from rfl,
      show keysAux [] (cs₂.map (fun c => c.guid)) = counterKeys cs₂ from rfl,
      counterKeys_mem_iff, counterKeys_mem_iff]
  exact (h.map _).mem_iff

theorem scoredList_perm {cs₁ cs₂ : List Cand} (h : cs₁ ~ cs₂) :
    scoredList cs₁ ~ scoredList cs₂ := by
  unfold scoredList
  have heq : ∀ g ∈ counterKeys cs₁,
      (g, scoreOf cs₁ g, (cs₁.filter (fun c => decide (c.guid = g))).length) =
      (g, scoreOf cs₂ g, (cs₂.filter (fun c => decide (c.guid = g))).length) := by
    intro g _
    rw [scoreOf_perm h, (h.filter _).length_eq]
  rw [List.map_congr_left heq]
  exact (counterKeys_perm h).map _

/-- C7 (confirmed): permuting the candidate discovery order never changes
the multiset of (value, score, occurrenceCount) triples the scorer
returns: both runs return none, or both return rankings that are
permutations of each other. -/
theorem C7_order_invariance (cs₁ cs₂ : List Cand) (h : cs₁.Perm cs₂) :
    (analyze_guid_confidence cs₁ = none ∧ analyze_guid_confidence cs₂ = none) ∨
    (∃ o₁ o₂, analyze_guid_confidence cs₁ = some o₁ ∧
      analyze_guid_confidence cs₂ = some o₂ ∧ o₁.Perm o₂) := by
  cases hc : cs₁ with
  | nil =>
      subst hc
      have h2 : cs₂ = [] := h.symm.eq_nil
      subst h2
      left
      simp [analyze_guid_confidence]
  | cons a l =>
      subst hc
      have h2 : cs₂ ≠ [] := by
        intro he
        subst he
        simpa using h.eq_nil
      right
      refine ⟨sortDesc (scoredList (a :: l)), sortDesc (scoredList cs₂), ?_, ?_, ?_⟩
      · simp [analyze_guid_confidence]
      · simp [analyze_guid_confidence, h2]
      · exact (sortDesc_perm _).trans ((scoredList_perm h).trans (sortDesc_perm _).symm)

/-- C7 witness: the invariance applied to a concrete list and its
transposition. -/
theorem C7_order_invariance_witness :
    (analyze_guid_confidence [candA, candC] = none ∧
      analyze_guid_confidence [candC, candA] = none) ∨
    (∃ o₁ o₂, analyze_guid_confidence [candA, candC] = some o₁ ∧
      analyze_guid_confidence [candC, candA] = some o₂ ∧ o₁.Perm o₂) :=
  C7_order_invariance [candA, candC] [candC, candA] (List.Perm.swap candC candA [])

/-! ## Attempt counting for the two strategies -/

theorem auto_new_go_count_le (env : Nat → AttemptA) (M : Nat) :
    ∀ (fuel attempt : Nat), (get_guid_auto_new_go env M attempt fuel).2 ≤ fuel := by
  intro fuel
  induction fuel with
  | zero => intro attempt; exact Nat.le_refl 0
  | succ fuel ih =>
      intro attempt
      simp only [get_guid_auto_new_go]
      split
      · split
        · simp
        · simp only [bump]; exact Nat.succ_le_succ (ih _)
      · split
        · split
          · simp
          · simp only [bump]; exact Nat.succ_le_succ (ih _)
        · split
          · split
            · simp
            · simp only [bump]; exact Nat.succ_le_succ (ih _)
          · split
            · split
              · simp
              · simp only [bump]; exact Nat.succ_le_succ (ih _)
            · simp only [bump]; exact Nat.succ_le_succ (ih _)

theorem auto_new_go_count_none (env : Nat → AttemptA) (M : Nat) :
    ∀ (fuel attempt : Nat), attempt + fuel = M + 1 →
      (get_guid_auto_new_go env M attempt fuel).1 = none →
      (get_guid_auto_new_go env M attempt fuel).2 = fuel := by
  intro fuel
  induction fuel with
  | zero => intro attempt _ _; rfl
  | succ fuel ih =>
      intro attempt hinv hnone
      simp only [get_guid_auto_new_go] at hnone ⊢
      by_cases h1 : (env attempt).rebootOk = false
      · rw [if_pos h1] at hnone ⊢
        by_cases h2 : attempt = M
        · rw [if_pos h2] at hnone ⊢
          simp only
          omega
        · rw [if_neg h2] at hnone ⊢
          simp only [bump] at hnone ⊢
          rw [ih (attempt + 1) (by omega) hnone]
      · rw [if_neg h1] at hnone ⊢
        by_cases h3 : (env attempt).waitOk = false
        · rw [if_pos h3] at hnone ⊢
          by_cases h2 : attempt = M
          · rw [if_pos h2] at hnone ⊢
            simp only
            omega
          · rw [if_neg h2] at hnone ⊢
            simp only [bump] at hnone ⊢
            rw [ih (attempt + 1) (by omega) hnone]
        · rw [if_neg h3] at hnone ⊢
          by_cases h4 : (env attempt).collectOk = false
          · rw [if_pos h4] at hnone ⊢
            by_cases h2 : attempt = M
            · rw [if_pos h2] at hnone ⊢
              simp only
              omega
            · rw [if_neg h2] at hnone ⊢
              simp only [bump] at hnone ⊢
              rw [ih (attempt + 1) (by omega) hnone]
          · rw [if_neg h4] at hnone ⊢
            cases hx : extract_guid_from_archive (env attempt).logShow with
            | some g =>
                rw [hx] at hnone
                dsimp only at hnone ⊢
                by_cases h5 : g ≠ [] ∧ validate_guid_structure g = true
                · rw [if_pos h5] at hnone
                  simp at hnone
                · rw [if_neg h5] at hnone ⊢
                  simp only [bump] at hnone ⊢
                  rw [ih (attempt + 1) (by omega) hnone]
            | none =>
                rw [hx] at hnone
                dsimp only [bump] at hnone ⊢
                rw [ih (attempt + 1) (by omega) hnone]

theorem auto_new_go_valid (env : Nat → AttemptA) (M : Nat) :
    ∀ (fuel attempt : Nat) (g : List Char),
      (get_guid_auto_new_go env M attempt fuel).1 = some g →
      validate_guid_structure g = true := by
  intro fuel
  induction fuel with
  | zero => intro attempt g h; exact absurd h (by simp [get_guid_auto_new_go])
  | succ fuel ih =>
      intro attempt g h
      simp only [get_guid_auto_new_go] at h
      by_cases h1 : (env attempt).rebootOk = false
      · rw [if_pos h1] at h
        by_cases h2 : attempt = M
        · rw [if_pos h2] at h; simp at h
        · rw [if_neg h2] at h; simp only [bump] at h; exact ih _ g h
      · rw [if_neg h1] at h
        by_cases h3 : (env attempt).waitOk = false
        · rw [if_pos h3] at h
          by_cases h2 : attempt = M
          · rw [if_pos h2] at h; simp at h
          · rw [if_neg h2] at h; simp only [bump] at h; exact ih _ g h
        · rw [if_neg h3] at h
          by_cases h4 : (env attempt).collectOk = false
          · rw [if_pos h4] at h
            by_cases h2 : attempt = M
            · rw [if_pos h2] at h; simp at h
            · rw [if_neg h2] at h; simp only [bump] at h; exact ih _ g h
          · rw [if_neg h4] at h
            cases hx : extract_guid_from_archive (env attempt).logShow with
            | some g' =>
                rw [hx] at h
                dsimp only at h
                by_cases h5 : g' ≠ [] ∧ validate_guid_structure g' = true
                · rw [if_pos h5] at h
                  have : g' = g := by simpa using h
                  exact this ▸ h5.2
                · rw [if_neg h5] at h; simp only [bump] at h; exact ih _ g h
            | none =>
                rw [hx] at h
                dsimp only [bump] at h
                exact ih _ g h

theorem retry_go_count_le (env : Nat → AttemptB) :
    ∀ (fuel k : Nat), (get_guid_auto_with_retry_go env k fuel).2 ≤ fuel := by
  intro fuel
  induction fuel with
  | zero => intro k; exact Nat.le_refl 0
  | succ fuel ih =>
      intro k
      simp only [get_guid_auto_with_retry_go]
      split
      · simp
      · simp only [bump]; exact Nat.succ_le_succ (ih _)

theorem retry_go_some (env : Nat → AttemptB) :
    ∀ (fuel k : Nat) (g : List Char),
      (get_guid_auto_with_retry_go env k fuel).1 = some g →
      ∃ j, get_guid_enhanced (env j) = some g := by
  intro fuel
  induction fuel with
  | zero => intro k g h; exact absurd h (by simp [get_guid_auto_with_retry_go])
  | succ fuel ih =>
      intro k g h
      simp only [get_guid_auto_with_retry_go] at h
      split at h
      · rename_i g' hg'
        exact ⟨k + 1, by rw [hg']; simpa using h⟩
      · simp only [bump] at h
        exact ih _ g h

/-! ## Claim C3 -/

/-- C3 (confirmed): Strategy A executes at most 3 outer attempts,
Strategy B at most 5, and Strategy B only begins after Strategy A has
executed all 3 of its attempts without producing a GUID. -/
theorem C3_attempt_bounds (envA : Nat → AttemptA) (envB : Nat → AttemptB) :
    (get_guid_auto envA envB).2.1 ≤ 3 ∧
    (get_guid_auto envA envB).2.2 ≤ 5 ∧
    ((get_guid_auto envA envB).2.2 ≠ 0 →
      (get_guid_auto_new envA 3).1 = none ∧ (get_guid_auto envA envB).2.1 = 3) := by
  unfold get_guid_auto
  cases hA : (get_guid_auto_new envA 3).1 with
  | some g =>
      simp only [hA]
      exact ⟨auto_new_go_count_le envA 3 3 1, by simp, by simp⟩
  | none =>
      simp only [hA]
      refine ⟨auto_new_go_count_le envA 3 3 1, retry_go_count_le envB 5 0, ?_⟩
      intro _
      exact ⟨by simp [hA], auto_new_go_count_none envA 3 3 1 (by omega) hA⟩

/-- C3 witness: with every Strategy A attempt failing at reboot and every
Strategy B attempt failing at collection, A runs 3 attempts, B runs 5, and
the bound theorem's fallback clause applies. -/
theorem C3_attempt_bounds_witness :
    (get_guid_auto envA0 envB0).2.1 ≤ 3 ∧
    (get_guid_auto envA0 envB0).2.2 ≤ 5 ∧
    ((get_guid_auto_new envA0 3).1 = none ∧ (get_guid_auto envA0 envB0).2.1 = 3) ∧
    (get_guid_auto envA0 envB0).2.2 = 5 :=
  ⟨(C3_attempt_bounds envA0 envB0).1, (C3_attempt_bounds envA0 envB0).2.1,
   (C3_attempt_bounds envA0 envB0).2.2 (by decide), by decide⟩

/-! ## Claim C10 -/

theorem foldl_extract_mem (data : List Char) :
    ∀ (sigs : List (List Char × Nat)) (acc : List Cand) (c : Cand),
      c ∈ sigs.foldl (fun acc sig =>
        if sig.1 = blmChars then acc ++ extract_guid_candidates data sig.2 512 else acc) acc →
      c ∈ acc ∨ ∃ sig ∈ sigs, c ∈ extract_guid_candidates data sig.2 512 := by
  intro sigs
  induction sigs with
  | nil => intro acc c h; exact Or.inl h
  | cons s ss ih =>
      intro acc c h
      simp only [List.foldl_cons] at h
      rcases ih _ c h with hacc | ⟨sig, hsig, hc⟩
      · by_cases hs : s.1 = blmChars
        · rw [if_pos hs] at hacc
          rcases List.mem_append.mp hacc with h1 | h1
          · exact Or.inl h1
          · exact Or.inr ⟨s, List.mem_cons_self _ _, h1⟩
        · rw [if_neg hs] at hacc
          exact Or.inl hacc
      · exact Or.inr ⟨sig, List.mem_cons_of_mem _ hsig, hc⟩

theorem analyze_head_guid {cs : List Cand} {best : List Char × Nat × Nat}
    {rest : List (List Char × Nat × Nat)}
    (h : analyze_guid_confidence cs = some (best :: rest)) :
    ∃ c ∈ cs, c.guid = best.1 := by
  obtain ⟨hne, hform⟩ := analyze_eq_some h
  have hmem : best ∈ sortDesc (scoredList cs) := by
    rw [← hform]
    exact List.mem_cons_self _ _
  have hsl : best ∈ scoredList cs := (sortDesc_perm _).mem_iff.mp hmem
  have hkey := (mem_scoredList hsl).1
  obtain ⟨c, hc, hcg⟩ := List.mem_map.mp ((counterKeys_mem_iff cs best.1).mp hkey)
  exact ⟨c, hc, hcg⟩

theorem enhanced_valid {e : AttemptB} {g : List Char}
    (h : get_guid_enhanced e = some g) : validate_guid_structure g = true := by
  unfold get_guid_enhanced at h
  split at h
  · exact absurd h (by simp)
  · split at h
    · exact absurd h (by simp)
    · dsimp only at h
      split at h
      · exact absurd h (by simp)
      · rename_i hne
        split at h
        · exact absurd h (by simp)
        · exact absurd h (by simp)
        · rename_i best rest hana
          have hg : g = best.1 := by
            split at h
            · rw [if_neg (by simp [confirm_guid_manual])] at h
              exact (Option.some.inj h).symm
            · exact (Option.some.inj h).symm
          subst hg
          obtain ⟨c, hc, hcg⟩ := analyze_head_guid hana
          rcases foldl_extract_mem e.data _ [] c hc with h0 | ⟨sig, _, hcx⟩
          · simp at h0
          · rw [← hcg]
            exact (mem_extract_validate hcx).1

/-- C10 (confirmed): every GUID returned by the structured archive-query
strategy or by the legacy raw-scan strategy passes the validator, and is
therefore a 36-character hyphenated string of uppercase hexadecimal
digits; an invalid candidate is never returned. -/
theorem C10_returned_guids (envA : Nat → AttemptA) (M : Nat) (e : AttemptB)
    (g1 g2 : List Char) :
    ((get_guid_auto_new envA M).1 = some g1 →
      validate_guid_structure g1 = true ∧ g1.length = 36 ∧
        ∀ c ∈ g1, c ∈ hexUpper ∨ c = '-') ∧
    (get_guid_enhanced e = some g2 →
      validate_guid_structure g2 = true ∧ g2.length = 36 ∧
        ∀ c ∈ g2, c ∈ hexUpper ∨ c = '-') := by
  constructor
  · intro h
    have hv := auto_new_go_valid envA M M 1 g1 h
    exact ⟨hv, (validate_shape hv).1, (validate_shape hv).2⟩
  · intro h
    have hv := enhanced_valid h
    exact ⟨hv, (validate_shape hv).1, (validate_shape hv).2⟩

/-- C10 witness: both strategies return the canonical GUID on concrete
environments, and the invariant holds for it. -/
theorem C10_returned_guids_witness :
    (validate_guid_structure exGuid = true ∧ exGuid.length = 36 ∧
      ∀ c ∈ exGuid, c ∈ hexUpper ∨ c = '-') ∧
    (validate_guid_structure exGuid = true ∧ exGuid.length = 36 ∧
      ∀ c ∈ exGuid, c ∈ hexUpper ∨ c = '-') :=
  ⟨(C10_returned_guids envA1 3 attB1 exGuid exGuid).1 (by decide),
   (C10_returned_guids envA1 3 attB1 exGuid exGuid).2 (by decide)⟩

/-! ## Claim C2 -/

/-- C2 (code-bug exhibit): when `get_guid_auto` produces no GUID the
workflow does NOT fail at the acquisition stage as the spec requires — it
proceeds to `ResolvePayload` and interpolates the Python `None` into the
server request.  The stage list shows `resolvePayload` executing after
`acquireGuid` with `env.guid = none`. -/
theorem C2_no_guid_check :
    wenvC2.guid = none ∧
    (Hacktivating wenvC2).stages = [.connect, .acquireGuid, .resolvePayload] ∧
    Stage.resolvePayload ∈ (Hacktivating wenvC2).stages ∧
    (Hacktivating wenvC2).requestGuid = some "None" := by
  refine ⟨rfl, by decide, by decide, by decide⟩

/-! ## Claim C8 -/

/-- C8 (confirmed): if the downloaded database has an asset table with 0
rows, the run terminates at `ValidatePayload` with the invalid-payload
failure, the deploy stage never executes, and the database handle opened
by the stage is closed on this failure path (the `finally: conn.close()`
of lines 958-959). -/
theorem C8_zero_rows (env : WEnv) (prd sn u1 u2 u3 p : String)
    (h1 : env.connect = .ok prd sn) (h2 : env.urls = some (u1, u2, u3))
    (h3 : ¬ u1 = "") (h4 : ¬ u2 = "") (h5 : ¬ u3 = "")
    (h6 : env.download = some p) (h7 : env.dbTableExists = true)
    (h8 : env.dbAssetRows = 0) :
    (Hacktivating env).failure = some .invalidPayload ∧
    (Hacktivating env).stages.getLast? = some .validatePayload ∧
    Stage.deploy ∉ (Hacktivating env).stages ∧
    (Hacktivating env).dbOpened = true ∧
    (Hacktivating env).dbClosed = true := by
  obtain ⟨con, gu, ur, dl, tb, rows, push⟩ := env
  simp only at h1 h2 h6 h7 h8
  subst h1 h2 h6 h7 h8
  simp only [Hacktivating]
  rw [if_neg (by tauto)]
  refine ⟨by simp, by simp, by simp, by simp, by simp⟩

/-- C8 witness: the zero-rows theorem applied to the concrete workflow
environment. -/
theorem C8_zero_rows_witness :
    (Hacktivating wenvC8).failure = some .invalidPayload ∧
    (Hacktivating wenvC8).stages.getLast? = some .validatePayload ∧
    Stage.deploy ∉ (Hacktivating wenvC8).stages ∧
    (Hacktivating wenvC8).dbOpened = true ∧
    (Hacktivating wenvC8).dbClosed = true :=
  C8_zero_rows wenvC8 "iPad1,2" "ABC123" "u1" "u2" "u3" "downloads.28.sqlitedb"
    rfl rfl (by decide) (by decide) (by decide) rfl rfl rfl

/-! ## Claim C9 -/

/-- C9 (confirmed): when the removal command reports a not-found error
(`ENOENT` in the captured stderr), `rm_file` still returns success,
regardless of the exit code — idempotent delete semantics. -/
theorem C9_rm_file_enoent (code : Int) (stdout stderr : List Char)
    (h : containsSub enoent stderr = true) :
    rm_file code stdout stderr = true := by
  unfold rm_file
  rw [h]
  simp

/-- C9 witness: a failed removal whose stderr carries ENOENT is reported
as success. -/
theorem C9_rm_file_enoent_witness :
    rm_file 1 [] ("afc rm failed: ENOENT no such file".toList) = true :=
  C9_rm_file_enoent 1 [] _ (by decide)

end RustA12
